import Mathlib

/-!
Shallow embedding of `src/xml_data_scrapper.py`, an XMI-to-JSON extraction
utility built on an XML tree library, together with proofs of the spec's
claims about it.

The XML library calls used by the source are embedded as follows:
`tag.find(name, attrs)` / `tag.find_all(name, attrs)` search the strict
descendants of `tag` in document (preorder) order, `tag[key]` is attribute
access that raises `KeyError` when the attribute is absent (modelled in the
`Except String` monad), a found element is always truthy while a failed
`find` yields `None` (falsy), and an attribute-filter value that is a list
matches by membership while a plain string matches by equality.
-/

namespace XmlScrapper

/-- An XML element as held by the parser: a tag name, an ordered attribute
list (lookup returns the first binding), and the list of child elements.
The parsed document (the soup object) is itself a `Tag` whose children are
the document's top-level elements. -/
inductive Tag : Type where
  | mk (name : String) (attrs : List (String × String)) (children : List Tag)

mutual
/-- Decidable equality of elements. -/
def tagDecEq : (a b : Tag) → Decidable (a = b)
  | .mk n1 a1 c1, .mk n2 a2 c2 =>
    match decEq n1 n2 with
    | isFalse h => isFalse (by simp [h])
    | isTrue h1 =>
      match decEq a1 a2 with
      | isFalse h => isFalse (by simp [h])
      | isTrue h2 =>
        match tagListDecEq c1 c2 with
        | isFalse h => isFalse (by simp [h])
        | isTrue h3 => isTrue (by rw [h1, h2, h3])

/-- Decidable equality of element lists. -/
def tagListDecEq : (as bs : List Tag) → Decidable (as = bs)
  | [], [] => isTrue rfl
  | [], _ :: _ => isFalse (by simp)
  | _ :: _, [] => isFalse (by simp)
  | a :: as, b :: bs =>
    match tagDecEq a b with
    | isFalse h => isFalse (by simp [h])
    | isTrue h1 =>
      match tagListDecEq as bs with
      | isFalse h => isFalse (by simp [h])
      | isTrue h2 => isTrue (by rw [h1, h2])
end

instance : DecidableEq Tag := tagDecEq

/-- The element's tag name. -/
def Tag.name : Tag → String
  | .mk n _ _ => n

/-- The element's attribute list. -/
def Tag.attrs : Tag → List (String × String)
  | .mk _ a _ => a

/-- The element's child elements, in document order. -/
def Tag.children : Tag → List Tag
  | .mk _ _ c => c

/-- `tag.get(key)`: the value of attribute `key`, or `none` when absent. -/
def Tag.getAttr (t : Tag) (k : String) : Option String :=
  t.attrs.lookup k

mutual
/-- All strict descendants of an element, in document (preorder) order:
the search space of `find` / `find_all` called on that element. -/
def Tag.descendants : Tag → List Tag
  | .mk _ _ cs => descendantsOfList cs

/-- Preorder listing of a forest of elements, each element before its
descendants. -/
def descendantsOfList : List Tag → List Tag
  | [] => []
  | c :: cs => c :: (Tag.descendants c ++ descendantsOfList cs)
end

/-- One attribute condition of a `find` / `find_all` filter dictionary:
a plain string matches by equality, a list of strings by membership. -/
inductive AttrFilter : Type where
  | eqTo (v : String)
  | oneOf (vs : List String)
deriving DecidableEq, Repr

/-- Whether a (possibly absent) attribute value satisfies a filter
condition; an absent attribute satisfies no condition. -/
def filterAccepts : AttrFilter → Option String → Bool
  | .eqTo v, some w => w == v
  | .oneOf vs, some w => vs.contains w
  | _, none => false

/-- Whether an element matches a `find` / `find_all` query: its tag name
equals the requested name and every attribute condition is satisfied. -/
def bsMatches (tagName : String) (conds : List (String × AttrFilter)) (t : Tag) : Bool :=
  t.name == tagName && conds.all (fun kv => filterAccepts kv.2 (t.getAttr kv.1))

/-- `root.find(tagName, conds)`: the first matching strict descendant of
`root` in document order, or `none`. -/
def bsFind (root : Tag) (tagName : String) (conds : List (String × AttrFilter)) : Option Tag :=
  root.descendants.find? (fun t => bsMatches tagName conds t)

/-- `root.find_all(tagName, conds)`: every matching strict descendant of
`root`, in document order. -/
def bsFindAll (root : Tag) (tagName : String) (conds : List (String × AttrFilter)) : List Tag :=
  root.descendants.filter (fun t => bsMatches tagName conds t)

/-- `t[key]`: attribute access, raising `KeyError` when absent. -/
def getItem (t : Tag) (k : String) : Except String String :=
  match t.getAttr k with
  | some v => Except.ok v
  | none => Except.error ("KeyError " ++ k)

/-- `get_station_id` (src/xml_data_scrapper.py lines 14-45): find the first
`packagedElement` of type `uml:Class` whose name is `Station` and return
its `xmi:id` together with the element, or the null pair when there is
none.  Reading and parsing the input file is abstracted away: the function
receives the parsed document, and `main` accounts for the file reads. -/
def get_station_id (soup : Tag) : Except String (Option String × Option Tag) :=
  match bsFind soup "packagedElement"
      [("xmi:type", AttrFilter.eqTo "uml:Class"), ("name", AttrFilter.oneOf ["Station"])] with
  | some station => do
      let i ← getItem station "xmi:id"
      Except.ok (some i, some station)
  | none => Except.ok (none, none)

/-- `get_station_attributes` (lines 47-63): the `xmi:id` of every
`ownedAttribute` descendant of the class element, in document order. -/
def get_station_attributes (station_element : Tag) : Except String (List String) :=
  (bsFindAll station_element "ownedAttribute" []).mapM (fun a => getItem a "xmi:id")

/-- `get_station_instances` (lines 65-76): every `packagedElement` of type
`uml:InstanceSpecification` whose `classifier` equals the given class
identifier, in document order. -/
def get_station_instances (soup : Tag) (station_classifier_id : String) : List Tag :=
  bsFindAll soup "packagedElement"
    [("xmi:type", AttrFilter.eqTo "uml:InstanceSpecification"),
     ("classifier", AttrFilter.eqTo station_classifier_id)]

/-- One entry of a record's attribute list. -/
structure AttrEntry where
  attribute_name : String
  attribute_value : String
deriving DecidableEq, Repr

/-- One output record: the instance's name and its resolved attributes. -/
structure StationRecord where
  station_name : String
  attributes : List AttrEntry
deriving DecidableEq, Repr

/-- The body of the slot loop of `print_station_details` (lines 99-115) for
one slot: read its `definingFeature`, look the attribute up in the whole
document, and if found build the entry, taking the first `value`
descendant's `symbol` or the sentinel `Aucune valeur`; a dangling
`definingFeature` yields no entry. -/
def processSlot (soup : Tag) (slot : Tag) : Except String (Option AttrEntry) := do
  let defining_feature_id ← getItem slot "definingFeature"
  match bsFind soup "ownedAttribute" [("xmi:id", AttrFilter.eqTo defining_feature_id)] with
  | some attrEl => do
      let attribute_name ← getItem attrEl "name"
      let attribute_value ←
        match bsFind slot "value" [] with
        | some value => getItem value "symbol"
        | none => Except.ok "Aucune valeur"
      Except.ok (some { attribute_name := attribute_name, attribute_value := attribute_value })
  | none => Except.ok none

/-- The slot loop of `print_station_details` (lines 99-115): fold
`processSlot` over the slots, appending each produced entry to the
accumulated attribute list. -/
def slotFold (soup : Tag) : List Tag → List AttrEntry → Except String (List AttrEntry)
  | [], acc => Except.ok acc
  | s :: rest, acc => do
      match ← processSlot soup s with
      | some e => slotFold soup rest (acc ++ [e])
      | none => slotFold soup rest acc

/-- The body of the instance loop of `print_station_details` (lines
92-117) for one instance: read its `name`, collect its `slot` descendants
and run the slot loop starting from the empty attribute list. -/
def buildRecord (soup : Tag) (station_instance : Tag) : Except String StationRecord := do
  let station_name ← getItem station_instance "name"
  let slots := bsFindAll station_instance "slot" []
  let resolved ← slotFold soup slots []
  Except.ok { station_name := station_name, attributes := resolved }

/-- `print_station_details` (lines 78-122): build one record per instance,
in input order.  The console progress lines it prints are a logging side
effect not represented in the returned value. -/
def print_station_details (station_instances : List Tag) (soup : Tag) :
    Except String (List StationRecord) :=
  station_instances.mapM (buildRecord soup)

/-- The diagnostic console messages `main` can print, abstracted from the
literal French strings of lines 148-175. -/
inductive Msg : Type where
  | noClassFound
  | classIdHeader
  | noAttributesFound
  | attributeIdsHeader
  | noInstancesFound
  | detailsSaved
deriving DecidableEq, Repr

/-- The stages of the pipeline, in order. -/
inductive Stage : Type where
  | locate
  | attrs
  | instances
  | build
  | serialize
deriving DecidableEq, Repr

/-- The observable outcome of one run of `main`: which stages ran, which
top-level messages were printed, how many times the input file was opened
and parsed, and the record list written to the output file (`none` when no
output file is written). -/
structure RunResult where
  stages : List Stage
  messages : List Msg
  reads : Nat
  output : Option (List StationRecord)
deriving DecidableEq, Repr

/-- Truthiness of the identifier returned by `get_station_id` under
`if not station_id:` — `None` and the empty string are falsy. -/
def optTruthy : Option String → Bool
  | none => false
  | some s => !(s == "")

/-- `main` (lines 136-175).  The input file is opened and parsed inside
`get_station_id` (first read) and a second time at lines 162-165 before
instance resolution; both parses of the same file yield the same document
`doc`, so the embedding passes `doc` to both consumers and counts the
reads.  Each `if not x:` test of the source is a truthiness test. -/
def main (doc : Tag) : Except String RunResult := do
  let (station_id, station_element) ← get_station_id doc
  if optTruthy station_id = false then
    Except.ok { stages := [Stage.locate], messages := [Msg.noClassFound],
                reads := 1, output := none }
  else
    match station_element with
    | none => Except.error "AttributeError"
    | some el => do
        let attribute_ids ← get_station_attributes el
        if attribute_ids.isEmpty then
          Except.ok { stages := [Stage.locate, Stage.attrs],
                      messages := [Msg.classIdHeader, Msg.noAttributesFound],
                      reads := 1, output := none }
        else
          let soup := doc
          let station_instances := get_station_instances soup (station_id.getD "")
          if station_instances.isEmpty then
            Except.ok { stages := [Stage.locate, Stage.attrs, Stage.instances],
                        messages := [Msg.classIdHeader, Msg.attributeIdsHeader,
                                     Msg.noInstancesFound],
                        reads := 2, output := none }
          else do
            let station_details ← print_station_details station_instances soup
            Except.ok { stages := [Stage.locate, Stage.attrs, Stage.instances,
                                   Stage.build, Stage.serialize],
                        messages := [Msg.classIdHeader, Msg.attributeIdsHeader,
                                     Msg.detailsSaved],
                        reads := 2, output := some station_details }

/-! ### Concrete documents used by witnesses and counterexamples -/

/-- An owned attribute `A1` named `Name` of the example class. -/
def attrA1 : Tag := Tag.mk "ownedAttribute" [("xmi:id", "A1"), ("name", "Name")] []

/-- The example class `Station` with identifier `C1`. -/
def classC1 : Tag :=
  Tag.mk "packagedElement"
    [("xmi:type", "uml:Class"), ("xmi:id", "C1"), ("name", "Station")] [attrA1]

/-- A value element carrying the symbol `North Gate`. -/
def valueV1 : Tag := Tag.mk "value" [("symbol", "North Gate")] []

/-- A slot referring to attribute `A1` with value `North Gate`. -/
def slotS1 : Tag := Tag.mk "slot" [("definingFeature", "A1")] [valueV1]

/-- An instance `UPS1` of class `C1` holding slot `slotS1`. -/
def instI1 : Tag :=
  Tag.mk "packagedElement"
    [("xmi:type", "uml:InstanceSpecification"), ("classifier", "C1"), ("name", "UPS1")]
    [slotS1]

/-- The model element owning the example class and instance. -/
def modelEl : Tag := Tag.mk "uml:Model" [] [classC1, instI1]

/-- The example document: a model owning the class and the instance. -/
def exDoc : Tag := Tag.mk "[document]" [] [modelEl]

/-! ### Spec-side predicates

These are written from the spec's words, to be compared with the
source-level queries. -/

/-- Spec §4.1: a `packagedElement` node whose type marker is `uml:Class`
and whose name is `Station`. -/
def isStationClass (t : Tag) : Prop :=
  t.name = "packagedElement" ∧ t.getAttr "xmi:type" = some "uml:Class" ∧
    t.getAttr "name" = some "Station"

instance (t : Tag) : Decidable (isStationClass t) := by
  unfold isStationClass; infer_instance

/-- Spec §4.3: a `packagedElement` node whose type marker is
`uml:InstanceSpecification` and whose `classifier` equals `i`. -/
def isInstanceSpecOf (i : String) (t : Tag) : Prop :=
  t.name = "packagedElement" ∧ t.getAttr "xmi:type" = some "uml:InstanceSpecification" ∧
    t.getAttr "classifier" = some i

instance (i : String) (t : Tag) : Decidable (isInstanceSpecOf i t) := by
  unfold isInstanceSpecOf; infer_instance

/-- Spec §4.4: an owned-attribute element whose identifier equals `d`. -/
def isOwnedAttrId (d : String) (t : Tag) : Prop :=
  t.name = "ownedAttribute" ∧ t.getAttr "xmi:id" = some d

instance (d : String) (t : Tag) : Decidable (isOwnedAttrId d t) := by
  unfold isOwnedAttrId; infer_instance

/-! ### Helper lemmas relating the embedded queries to the spec-side
predicates -/

/-- `find?` returns the head of the first match when the list splits into a
prefix of non-matches followed by a match. -/
theorem find?_first_of_split {α : Type} (p : α → Bool) (pre : List α) (x : α)
    (rest : List α) (hpre : ∀ e ∈ pre, p e = false) (hx : p x = true) :
    (pre ++ x :: rest).find? p = some x := by
  induction pre with
  | nil => simp [List.find?_cons_of_pos, hx]
  | cons a as ih =>
    have ha := hpre a (by simp)
    simpa [List.find?_cons_of_neg, ha] using ih (fun e he => hpre e (by simp [he]))

/-- The class query of `get_station_id` matches exactly the spec-side
station-class predicate. -/
theorem stationClass_query (t : Tag) :
    bsMatches "packagedElement"
      [("xmi:type", AttrFilter.eqTo "uml:Class"), ("name", AttrFilter.oneOf ["Station"])] t =
      true ↔ isStationClass t := by
  unfold bsMatches isStationClass
  cases hx : t.getAttr "xmi:type" <;> cases hn : t.getAttr "name" <;>
    simp [List.all_cons, List.all_nil, filterAccepts, hx, hn, List.contains, List.elem]

/-- The instance query of `get_station_instances` matches exactly the
spec-side instance predicate. -/
theorem instanceSpec_query (i : String) (t : Tag) :
    bsMatches "packagedElement"
      [("xmi:type", AttrFilter.eqTo "uml:InstanceSpecification"),
       ("classifier", AttrFilter.eqTo i)] t = true ↔ isInstanceSpecOf i t := by
  unfold bsMatches isInstanceSpecOf
  cases hx : t.getAttr "xmi:type" <;> cases hc : t.getAttr "classifier" <;>
    simp [List.all_cons, List.all_nil, filterAccepts, hx, hc]

/-- The attribute-lookup query of the record builder matches exactly the
spec-side owned-attribute predicate. -/
theorem ownedAttr_query (d : String) (t : Tag) :
    bsMatches "ownedAttribute" [("xmi:id", AttrFilter.eqTo d)] t = true ↔
      isOwnedAttrId d t := by
  unfold bsMatches isOwnedAttrId
  cases hi : t.getAttr "xmi:id" <;>
    simp [List.all_cons, List.all_nil, filterAccepts, hi]

/-- A `find_all` with no attribute conditions filters by tag name alone. -/
theorem bsFindAll_noconds (root : Tag) (tagName : String) :
    bsFindAll root tagName [] = root.descendants.filter (fun t => t.name == tagName) := by
  unfold bsFindAll
  exact List.filter_congr (fun t _ => by simp [bsMatches])

/-- The instance query agrees with the spec-side predicate at the level of
booleans. -/
theorem instanceSpec_query_eq (i : String) (t : Tag) :
    bsMatches "packagedElement"
      [("xmi:type", AttrFilter.eqTo "uml:InstanceSpecification"),
       ("classifier", AttrFilter.eqTo i)] t = decide (isInstanceSpecOf i t) := by
  by_cases hP : isInstanceSpecOf i t
  · simp only [hP, decide_eq_true_eq, decide_True]
    exact (instanceSpec_query i t).mpr hP
  · simp only [hP, decide_False]
    exact Bool.eq_false_iff.mpr (fun hb => hP ((instanceSpec_query i t).mp hb))

/-- In the `Except` monad, mapping attribute access over a list of elements
that all carry the attribute yields the list of values. -/
theorem mapM_getItem_ids (l : List Tag)
    (h : ∀ a ∈ l, (a.getAttr "xmi:id").isSome) :
    l.mapM (fun a => getItem a "xmi:id") =
      Except.ok (l.map (fun a => (a.getAttr "xmi:id").getD "")) := by
  induction l with
  | nil => rfl
  | cons a as ih =>
    have ha := h a (by simp)
    obtain ⟨v, hv⟩ := Option.isSome_iff_exists.mp ha
    have hga : getItem a "xmi:id" = Except.ok v := by simp [getItem, hv]
    rw [List.mapM_cons, hga, ih (fun x hx => h x (by simp [hx])), List.map_cons, hv]
    rfl

/-- When the document order splits as non-matches, a station class, and a
remainder, `get_station_id` returns that class and its identifier. -/
theorem get_station_id_eq_first (soup : Tag) (pre : List Tag) (st : Tag)
    (rest : List Tag) (i : String) (hsplit : soup.descendants = pre ++ st :: rest)
    (hpre : ∀ e ∈ pre, ¬ isStationClass e) (hst : isStationClass st)
    (hid : st.getAttr "xmi:id" = some i) :
    get_station_id soup = Except.ok (some i, some st) := by
  have hfind : bsFind soup "packagedElement"
      [("xmi:type", AttrFilter.eqTo "uml:Class"),
       ("name", AttrFilter.oneOf ["Station"])] = some st := by
    unfold bsFind
    rw [hsplit]
    apply find?_first_of_split
    · exact fun e he =>
        Bool.eq_false_iff.mpr (fun hb => hpre e he ((stationClass_query e).mp hb))
    · exact (stationClass_query st).mpr hst
  have hgi : getItem st "xmi:id" = Except.ok i := by simp [getItem, hid]
  simp only [get_station_id, hfind, hgi]
  rfl

/-- When no descendant is a station class, `get_station_id` returns the
null pair. -/
theorem get_station_id_eq_none (soup : Tag)
    (hnone : ∀ e ∈ soup.descendants, ¬ isStationClass e) :
    get_station_id soup = Except.ok (none, none) := by
  have hfind : bsFind soup "packagedElement"
      [("xmi:type", AttrFilter.eqTo "uml:Class"),
       ("name", AttrFilter.oneOf ["Station"])] = none := by
    unfold bsFind
    rw [List.find?_eq_none]
    exact fun e he hb => hnone e he ((stationClass_query e).mp hb)
  simp [get_station_id, hfind]

/-- C3: for every document containing at least one `packagedElement` of
type `uml:Class` named `Station`, `get_station_id` returns the `xmi:id`
and element of the first such packaged element (in document order); for
every document containing none, it returns the null pair. -/
theorem c3_locate_class (soup : Tag) :
    (∀ pre st rest i, soup.descendants = pre ++ st :: rest →
        (∀ e ∈ pre, ¬ isStationClass e) → isStationClass st →
        st.getAttr "xmi:id" = some i →
        get_station_id soup = Except.ok (some i, some st)) ∧
    ((∀ e ∈ soup.descendants, ¬ isStationClass e) →
        get_station_id soup = Except.ok (none, none)) :=
  ⟨fun pre st rest i h1 h2 h3 h4 => get_station_id_eq_first soup pre st rest i h1 h2 h3 h4,
   fun h => get_station_id_eq_none soup h⟩

/-- Witness for C3 on the example document: the class `C1` is located. -/
theorem c3_locate_class_witness :
    get_station_id exDoc = Except.ok (some "C1", some classC1) :=
  (c3_locate_class exDoc).1 [modelEl] classC1 [attrA1, instI1, slotS1, valueV1] "C1"
    (by decide) (by decide) (by decide) (by decide)

/-- C4: `get_station_instances` returns exactly the
`uml:InstanceSpecification` packaged elements whose classifier equals the
given identifier, in document order, and every returned element's
classifier equals that identifier. -/
theorem c4_find_instances (soup : Tag) (i : String) :
    get_station_instances soup i =
      soup.descendants.filter (fun e => decide (isInstanceSpecOf i e)) ∧
    ∀ e ∈ get_station_instances soup i, isInstanceSpecOf i e := by
  have h1 : get_station_instances soup i =
      soup.descendants.filter (fun e => decide (isInstanceSpecOf i e)) := by
    unfold get_station_instances bsFindAll
    exact List.filter_congr (fun t _ => instanceSpec_query_eq i t)
  refine ⟨h1, ?_⟩
  intro e he
  rw [h1, List.mem_filter] at he
  simpa using he.2

/-- Witness for C4 on the example document: exactly the instance `UPS1` is
returned, and its classifier is `C1`. -/
theorem c4_find_instances_witness :
    get_station_instances exDoc "C1" = [instI1] ∧ isInstanceSpecOf "C1" instI1 :=
  ⟨((c4_find_instances exDoc "C1").1).trans (by decide),
   (c4_find_instances exDoc "C1").2 instI1 (by decide)⟩

/-- C5: for a class element whose `ownedAttribute` descendants all carry an
`xmi:id`, `get_station_attributes` returns exactly the `xmi:id` of each
`ownedAttribute` descendant, preserving document order (hence exactly as
many identifiers as there are such descendants). -/
theorem c5_list_owned_attributes (el : Tag)
    (h : ∀ e ∈ el.descendants, e.name = "ownedAttribute" → (e.getAttr "xmi:id").isSome) :
    get_station_attributes el =
      Except.ok ((el.descendants.filter (fun e => e.name == "ownedAttribute")).map
        (fun e => (e.getAttr "xmi:id").getD "")) := by
  unfold get_station_attributes
  rw [bsFindAll_noconds]
  apply mapM_getItem_ids
  intro a ha
  rw [List.mem_filter] at ha
  exact h a ha.1 (by simpa using ha.2)

/-- Witness for C5 on the example class: its single owned attribute `A1`
is enumerated. -/
theorem c5_list_owned_attributes_witness :
    get_station_attributes classC1 = Except.ok ["A1"] :=
  (c5_list_owned_attributes classC1 (by decide)).trans (congrArg Except.ok (by decide))

/-! ### Except-monad reduction helpers -/

/-- Binding a successful `Except` computation applies the continuation. -/
theorem ok_bind {ε α β : Type} (a : α) (f : α → Except ε β) :
    (Except.ok a >>= f : Except ε β) = f a := rfl

/-- Binding a failed `Except` computation propagates the error. -/
theorem err_bind {ε α β : Type} (e : ε) (f : α → Except ε β) :
    (Except.error e >>= f : Except ε β) = Except.error e := rfl

/-- A slot whose `definingFeature` matches no owned attribute anywhere in
the document is resolved to no entry and no error. -/
theorem processSlot_dangling (soup s : Tag) (d : String)
    (hdf : s.getAttr "definingFeature" = some d)
    (hdangling : ∀ e ∈ soup.descendants, ¬ isOwnedAttrId d e) :
    processSlot soup s = Except.ok none := by
  have hfind : bsFind soup "ownedAttribute" [("xmi:id", AttrFilter.eqTo d)] = none := by
    unfold bsFind
    rw [List.find?_eq_none]
    exact fun e he hb => hdangling e he ((ownedAttr_query d e).mp hb)
  have hgi : getItem s "definingFeature" = Except.ok d := by simp [getItem, hdf]
  simp only [processSlot, hgi, ok_bind, hfind]

/-- Deleting a dangling-reference slot from the slot list leaves the slot
loop's result unchanged, for any accumulated attribute list. -/
theorem slotFold_dangling (soup s : Tag) (d : String)
    (hdf : s.getAttr "definingFeature" = some d)
    (hdangling : ∀ e ∈ soup.descendants, ¬ isOwnedAttrId d e) :
    ∀ pre post acc, slotFold soup (pre ++ s :: post) acc = slotFold soup (pre ++ post) acc := by
  intro pre
  induction pre with
  | nil =>
    intro post acc
    simp only [List.nil_append, slotFold, processSlot_dangling soup s d hdf hdangling, ok_bind]
  | cons p ps ih =>
    intro post acc
    simp only [List.cons_append, slotFold]
    cases hps : processSlot soup p with
    | error e => rw [err_bind, err_bind]
    | ok r =>
      rw [ok_bind, ok_bind]
      cases r with
      | some entry => exact ih post (acc ++ [entry])
      | none => exact ih post acc

/-- C1: a slot whose `definingFeature` identifier matches no owned
attribute in the document contributes no entry to the record's attribute
list and raises no error: the record built for the instance equals the
record built from the same instance with that slot deleted, every other
slot being resolved unaffected. -/
theorem c1_dangling_reference_skipped (soup inst : Tag) (nm : String)
    (pre post : List Tag) (s : Tag) (d : String)
    (hnm : inst.getAttr "name" = some nm)
    (hslots : bsFindAll inst "slot" [] = pre ++ s :: post)
    (hdf : s.getAttr "definingFeature" = some d)
    (hdangling : ∀ e ∈ soup.descendants, ¬ isOwnedAttrId d e) :
    buildRecord soup inst =
      Except.map (fun resolved => { station_name := nm, attributes := resolved })
        (slotFold soup (pre ++ post) []) := by
  have hgn : getItem inst "name" = Except.ok nm := by simp [getItem, hnm]
  simp only [buildRecord, hgn, ok_bind, hslots,
    slotFold_dangling soup s d hdf hdangling pre post []]
  cases h : slotFold soup (pre ++ post) [] with
  | error e => rw [err_bind]; rfl
  | ok r => rw [ok_bind]; rfl

/-- A slot referring to the dangling identifier `A9`, with no value child. -/
def slotSD : Tag := Tag.mk "slot" [("definingFeature", "A9")] []

/-- An instance `UPS2` carrying a resolvable slot and a dangling slot. -/
def instI2 : Tag :=
  Tag.mk "packagedElement"
    [("xmi:type", "uml:InstanceSpecification"), ("classifier", "C1"), ("name", "UPS2")]
    [slotS1, slotSD]

/-- Document for the C1 witness. -/
def exDoc2 : Tag := Tag.mk "[document]" [] [Tag.mk "uml:Model" [] [classC1, instI2]]

/-- Witness for C1: deleting the dangling slot of `UPS2` leaves its
record unchanged. -/
theorem c1_dangling_reference_skipped_witness :
    buildRecord exDoc2 instI2 =
      Except.map (fun resolved => { station_name := "UPS2", attributes := resolved })
        (slotFold exDoc2 ([slotS1] ++ []) []) :=
  c1_dangling_reference_skipped exDoc2 instI2 "UPS2" [slotS1] [] slotSD "A9"
    (by decide) (by decide) (by decide) (by decide)

/-- C2: a slot whose defining feature resolves to a known, named attribute
but which has no `value` descendant is resolved to an entry whose
`attribute_value` is exactly the sentinel `Aucune valeur`, appended to the
record's attribute list.  (That every entry carries an `attribute_value`
at all is structural: `AttrEntry` always has both fields.) -/
theorem c2_missing_value_sentinel (soup s : Tag) (d : String) (pre rest2 : List Tag)
    (attrEl : Tag) (nm : String)
    (hdf : s.getAttr "definingFeature" = some d)
    (hsplit : soup.descendants = pre ++ attrEl :: rest2)
    (hpre : ∀ e ∈ pre, ¬ isOwnedAttrId d e)
    (hattr : isOwnedAttrId d attrEl)
    (hname : attrEl.getAttr "name" = some nm)
    (hnoval : ∀ e ∈ s.descendants, e.name ≠ "value") :
    processSlot soup s =
      Except.ok (some { attribute_name := nm, attribute_value := "Aucune valeur" }) ∧
    ∀ slots acc, slotFold soup (s :: slots) acc =
      slotFold soup slots (acc ++ [{ attribute_name := nm, attribute_value := "Aucune valeur" }]) := by
  have hfind : bsFind soup "ownedAttribute" [("xmi:id", AttrFilter.eqTo d)] = some attrEl := by
    unfold bsFind
    rw [hsplit]
    apply find?_first_of_split
    · exact fun e he =>
        Bool.eq_false_iff.mpr (fun hb => hpre e he ((ownedAttr_query d e).mp hb))
    · exact (ownedAttr_query d attrEl).mpr hattr
  have hnovalfind : bsFind s "value" [] = none := by
    unfold bsFind
    rw [List.find?_eq_none]
    intro e he hb
    exact hnoval e he (by simpa [bsMatches] using hb)
  have hgi : getItem s "definingFeature" = Except.ok d := by simp [getItem, hdf]
  have hgn : getItem attrEl "name" = Except.ok nm := by simp [getItem, hname]
  have h1 : processSlot soup s =
      Except.ok (some { attribute_name := nm, attribute_value := "Aucune valeur" }) := by
    simp only [processSlot, hgi, ok_bind, hfind, hgn, hnovalfind]
  refine ⟨h1, ?_⟩
  intro slots acc
  simp only [slotFold, h1, ok_bind]

/-- A slot referring to attribute `A1` but carrying no value child. -/
def slotS2 : Tag := Tag.mk "slot" [("definingFeature", "A1")] []

/-- An instance `UPS3` whose only slot has no value. -/
def instI3 : Tag :=
  Tag.mk "packagedElement"
    [("xmi:type", "uml:InstanceSpecification"), ("classifier", "C1"), ("name", "UPS3")]
    [slotS2]

/-- The model element of the C2 witness document. -/
def modelEl3 : Tag := Tag.mk "uml:Model" [] [classC1, instI3]

/-- Document for the C2 witness. -/
def exDoc3 : Tag := Tag.mk "[document]" [] [modelEl3]

/-- Witness for C2: the valueless slot of `UPS3` resolves to the sentinel. -/
theorem c2_missing_value_sentinel_witness :
    processSlot exDoc3 slotS2 =
      Except.ok (some { attribute_name := "Name", attribute_value := "Aucune valeur" }) :=
  (c2_missing_value_sentinel exDoc3 slotS2 "A1" [modelEl3, classC1] [instI3, slotS2]
    attrA1 "Name" (by decide) (by decide) (by decide) (by decide) (by decide) (by decide)).1

/-- Decidable equality for `Except`, used to evaluate runs of the
pipeline on concrete documents. -/
def exceptDecEq {ε α : Type} [DecidableEq ε] [DecidableEq α] :
    (a b : Except ε α) → Decidable (a = b)
  | .ok a, .ok b =>
    match decEq a b with
    | isTrue h => isTrue (by rw [h])
    | isFalse h => isFalse (by simp [h])
  | .error e, .error f =>
    match decEq e f with
    | isTrue h => isTrue (by rw [h])
    | isFalse h => isFalse (by simp [h])
  | .ok _, .error _ => isFalse (by simp)
  | .error _, .ok _ => isFalse (by simp)

instance {ε α : Type} [DecidableEq ε] [DecidableEq α] : DecidableEq (Except ε α) :=
  exceptDecEq

/-- A class element with no owned attributes yields the empty identifier
list. -/
theorem get_station_attributes_eq_nil (el : Tag)
    (h : ∀ e ∈ el.descendants, e.name ≠ "ownedAttribute") :
    get_station_attributes el = Except.ok [] := by
  unfold get_station_attributes
  rw [bsFindAll_noconds, List.filter_eq_nil_iff.mpr (fun a ha => by simp [h a ha])]
  rfl

/-- A document with no instance of classifier `i` yields the empty
instance list. -/
theorem get_station_instances_eq_nil (doc : Tag) (i : String)
    (h : ∀ e ∈ doc.descendants, ¬ isInstanceSpecOf i e) :
    get_station_instances doc i = [] := by
  unfold get_station_instances bsFindAll
  rw [List.filter_eq_nil_iff]
  intro a ha
  rw [instanceSpec_query_eq]
  simpa using h a ha

/-- C6: when the class is not found, or the class has no attributes, or no
matching instances exist, `main` short-circuits at that stage, emits the
corresponding message, runs no later stage, and writes no output file; in
particular instance resolution never runs when the attribute list is
empty (the second file read, counted at the `instances` stage, does not
happen: `reads = 1`). -/
theorem c6_short_circuit (doc : Tag) :
    ((∀ e ∈ doc.descendants, ¬ isStationClass e) →
        main doc = Except.ok { stages := [Stage.locate], messages := [Msg.noClassFound],
                               reads := 1, output := none }) ∧
    (∀ pre st rest i, doc.descendants = pre ++ st :: rest →
        (∀ e ∈ pre, ¬ isStationClass e) → isStationClass st →
        st.getAttr "xmi:id" = some i → i ≠ "" →
        (∀ e ∈ st.descendants, e.name ≠ "ownedAttribute") →
        main doc = Except.ok { stages := [Stage.locate, Stage.attrs],
                               messages := [Msg.classIdHeader, Msg.noAttributesFound],
                               reads := 1, output := none }) ∧
    (∀ pre st rest i, doc.descendants = pre ++ st :: rest →
        (∀ e ∈ pre, ¬ isStationClass e) → isStationClass st →
        st.getAttr "xmi:id" = some i → i ≠ "" →
        (∀ e ∈ st.descendants, e.name = "ownedAttribute" → (e.getAttr "xmi:id").isSome) →
        (∃ e ∈ st.descendants, e.name = "ownedAttribute") →
        (∀ e ∈ doc.descendants, ¬ isInstanceSpecOf i e) →
        main doc = Except.ok { stages := [Stage.locate, Stage.attrs, Stage.instances],
                               messages := [Msg.classIdHeader, Msg.attributeIdsHeader,
                                            Msg.noInstancesFound],
                               reads := 2, output := none }) := by
  refine ⟨?_, ?_, ?_⟩
  · intro hnone
    simp [main, get_station_id_eq_none doc hnone, ok_bind, optTruthy]
  · intro pre st rest i hsplit hpre hst hid hne hnoattr
    have hot : optTruthy (some i) = true := by simp [optTruthy, hne]
    have hattrs : get_station_attributes st = Except.ok [] :=
      get_station_attributes_eq_nil st hnoattr
    simp [main, get_station_id_eq_first doc pre st rest i hsplit hpre hst hid,
      ok_bind, hot, hattrs]
  · intro pre st rest i hsplit hpre hst hid hne hids hex hnoinst
    have hot : optTruthy (some i) = true := by simp [optTruthy, hne]
    have hattrs : get_station_attributes st =
        Except.ok ((st.descendants.filter (fun e => e.name == "ownedAttribute")).map
          (fun e => (e.getAttr "xmi:id").getD "")) := by
      unfold get_station_attributes
      rw [bsFindAll_noconds]
      apply mapM_getItem_ids
      intro a ha
      rw [List.mem_filter] at ha
      exact hids a ha.1 (by simpa using ha.2)
    have hnonempty : ((st.descendants.filter (fun e => e.name == "ownedAttribute")).map
        (fun e => (e.getAttr "xmi:id").getD "")).isEmpty = false := by
      obtain ⟨a, hamem, haname⟩ := hex
      have hmemf : a ∈ st.descendants.filter (fun e => e.name == "ownedAttribute") :=
        List.mem_filter.mpr ⟨hamem, by simp [haname]⟩
      have hmemm := List.mem_map_of_mem (fun e => (e.getAttr "xmi:id").getD "") hmemf
      have hne2 := List.ne_nil_of_mem hmemm
      cases hl : (st.descendants.filter (fun e => e.name == "ownedAttribute")).map
          (fun e => (e.getAttr "xmi:id").getD "") with
      | nil => exact absurd hl hne2
      | cons x xs => rfl
    have hinst : get_station_instances doc i = [] :=
      get_station_instances_eq_nil doc i hnoinst
    simp [main, get_station_id_eq_first doc pre st rest i hsplit hpre hst hid,
      ok_bind, hot, hattrs, hnonempty, hinst]
    exact hex

/-- A document whose only packaged element is an empty model: no class. -/
def docNoClass : Tag := Tag.mk "[document]" [] [Tag.mk "uml:Model" [] []]

/-- A station class with no owned attributes. -/
def classBare : Tag :=
  Tag.mk "packagedElement"
    [("xmi:type", "uml:Class"), ("xmi:id", "C2"), ("name", "Station")] []

/-- A document whose station class has no attributes. -/
def docNoAttrs : Tag := Tag.mk "[document]" [] [Tag.mk "uml:Model" [] [classBare]]

/-- A document with a class and attribute but no instances. -/
def docNoInstances : Tag := Tag.mk "[document]" [] [Tag.mk "uml:Model" [] [classC1]]

/-- Witness for C6: the three short-circuiting runs on concrete
documents. -/
theorem c6_short_circuit_witness :
    main docNoClass = Except.ok { stages := [Stage.locate], messages := [Msg.noClassFound],
                                  reads := 1, output := none } ∧
    main docNoAttrs = Except.ok { stages := [Stage.locate, Stage.attrs],
                                  messages := [Msg.classIdHeader, Msg.noAttributesFound],
                                  reads := 1, output := none } ∧
    main docNoInstances = Except.ok
      { stages := [Stage.locate, Stage.attrs, Stage.instances],
        messages := [Msg.classIdHeader, Msg.attributeIdsHeader, Msg.noInstancesFound],
        reads := 2, output := none } :=
  ⟨(c6_short_circuit docNoClass).1 (by decide),
   (c6_short_circuit docNoAttrs).2.1 [Tag.mk "uml:Model" [] [classBare]] classBare [] "C2"
     (by decide) (by decide) (by decide) (by decide) (by decide) (by decide),
   (c6_short_circuit docNoInstances).2.2 [Tag.mk "uml:Model" [] [classC1]] classC1
     [attrA1] "C1" (by decide) (by decide) (by decide) (by decide) (by decide)
     (by decide) (by decide) (by decide)⟩

/-! ### C8: how many times the input file is read -/

/-- The run result of `main` on the example document `exDoc`. -/
def exRun : RunResult :=
  { stages := [Stage.locate, Stage.attrs, Stage.instances, Stage.build, Stage.serialize],
    messages := [Msg.classIdHeader, Msg.attributeIdsHeader, Msg.detailsSaved],
    reads := 2,
    output := some [{ station_name := "UPS1",
                      attributes := [{ attribute_name := "Name",
                                       attribute_value := "North Gate" }] }] }

/-- Counterexample to C8: on the example document the run completes with
`reads = 2`: the input file is opened and parsed a second time (lines
162-165 of the source) before instance resolution, so it is not read
exactly once. -/
theorem c8_single_read_counterexample :
    main exDoc = Except.ok exRun ∧ exRun.reads ≠ 1 :=
  ⟨by decide, by decide⟩

/-- C8 as amended: every successful run reads and parses the input file
once when locating the class and, exactly when the pipeline reaches the
instance-resolution stage, a second time; no run reads it more than
twice. -/
theorem c8_read_count (doc : Tag) (r : RunResult) (h : main doc = Except.ok r) :
    r.reads = (if Stage.instances ∈ r.stages then 2 else 1) := by
  cases hg : get_station_id doc with
  | error e =>
    have hm : main doc = Except.error e := by simp [main, hg, err_bind]
    rw [hm] at h
    exact absurd h (by simp)
  | ok p =>
    obtain ⟨sid, sel⟩ := p
    by_cases ht : optTruthy sid = false
    · have hm : main doc =
          Except.ok { stages := [Stage.locate], messages := [Msg.noClassFound],
                      reads := 1, output := none } := by
        simp [main, hg, ok_bind, ht]
      rw [hm] at h
      injection h with h2
      subst h2
      rfl
    · have ht2 : optTruthy sid = true := by
        cases hx : optTruthy sid
        · exact absurd hx ht
        · rfl
      cases sel with
      | none =>
        have hm : main doc = Except.error "AttributeError" := by
          simp [main, hg, ok_bind, ht2]
        rw [hm] at h
        exact absurd h (by simp)
      | some el =>
        cases hga : get_station_attributes el with
        | error e =>
          have hm : main doc = Except.error e := by
            simp [main, hg, ok_bind, ht2, hga, err_bind]
          rw [hm] at h
          exact absurd h (by simp)
        | ok ids =>
          by_cases hie : ids = []
          · have hm : main doc =
                Except.ok { stages := [Stage.locate, Stage.attrs],
                            messages := [Msg.classIdHeader, Msg.noAttributesFound],
                            reads := 1, output := none } := by
              simp [main, hg, ok_bind, ht2, hga, hie]
            rw [hm] at h
            injection h with h2
            subst h2
            rfl
          · by_cases hin : get_station_instances doc (sid.getD "") = []
            · have hm : main doc =
                  Except.ok { stages := [Stage.locate, Stage.attrs, Stage.instances],
                              messages := [Msg.classIdHeader, Msg.attributeIdsHeader,
                                           Msg.noInstancesFound],
                              reads := 2, output := none } := by
                simp [main, hg, ok_bind, ht2, hga, hie, hin]
              rw [hm] at h
              injection h with h2
              subst h2
              rfl
            · cases hpd : print_station_details (get_station_instances doc (sid.getD "")) doc with
              | error e =>
                have hm : main doc = Except.error e := by
                  simp [main, hg, ok_bind, ht2, hga, hie, hin, hpd, err_bind]
                rw [hm] at h
                exact absurd h (by simp)
              | ok details =>
                have hm : main doc =
                    Except.ok { stages := [Stage.locate, Stage.attrs, Stage.instances,
                                           Stage.build, Stage.serialize],
                                messages := [Msg.classIdHeader, Msg.attributeIdsHeader,
                                             Msg.detailsSaved],
                                reads := 2, output := some details } := by
                  simp [main, hg, ok_bind, ht2, hga, hie, hin, hpd]
                rw [hm] at h
                injection h with h2
                subst h2
                rfl

/-- Witness for the amended C8 on the example document. -/
theorem c8_read_count_witness :
    exRun.reads = (if Stage.instances ∈ exRun.stages then 2 else 1) :=
  c8_read_count exDoc exRun (by decide)

/-! ### C9: read-only traversal -/

/-- Stage 1 as a state transformer on the parsed document: the result and
the document the stage leaves behind.  The source only calls `find` and
attribute reads on the document, so the document is left as it was. -/
def locateStep (doc : Tag) : Except String (Option String × Option Tag) × Tag :=
  (get_station_id doc, doc)

/-- Stage 2 as a state transformer on the parsed document. -/
def attrsStep (doc el : Tag) : Except String (List String) × Tag :=
  (get_station_attributes el, doc)

/-- Stage 3 as a state transformer on the parsed document. -/
def instancesStep (doc : Tag) (i : String) : List Tag × Tag :=
  (get_station_instances doc i, doc)

/-- Stage 4 as a state transformer on the parsed document. -/
def buildStep (doc : Tag) (insts : List Tag) : Except String (List StationRecord) × Tag :=
  (print_station_details insts doc, doc)

/-- C9: every stage leaves the parsed document exactly as it was, and the
elements handed out by the class locator and the instance resolver are
nodes of the original document (read-only traversal: no stage constructs
modified document nodes). -/
theorem c9_read_only (doc el : Tag) (i : String) (insts : List Tag) :
    (locateStep doc).2 = doc ∧ (attrsStep doc el).2 = doc ∧
    (instancesStep doc i).2 = doc ∧ (buildStep doc insts).2 = doc ∧
    (∀ i2 st, get_station_id doc = Except.ok (i2, some st) → st ∈ doc.descendants) ∧
    (∀ e ∈ get_station_instances doc i, e ∈ doc.descendants) := by
  refine ⟨rfl, rfl, rfl, rfl, ?_, ?_⟩
  · intro i2 st hok
    unfold get_station_id at hok
    cases hf : bsFind doc "packagedElement"
        [("xmi:type", AttrFilter.eqTo "uml:Class"),
         ("name", AttrFilter.oneOf ["Station"])] with
    | none =>
      simp only [hf] at hok
      have hpair := Except.ok.inj hok
      exact absurd (congrArg Prod.snd hpair) (by simp)
    | some station =>
      simp only [hf] at hok
      cases hgi : getItem station "xmi:id" with
      | error e =>
        rw [hgi, err_bind] at hok
        exact absurd hok (by simp)
      | ok v =>
        rw [hgi, ok_bind] at hok
        have hpair := Except.ok.inj hok
        have hst : station = st := by simpa using congrArg Prod.snd hpair
        exact hst ▸ List.mem_of_find?_eq_some hf
  · intro e he
    unfold get_station_instances bsFindAll at he
    exact (List.mem_filter.mp he).1

/-- Witness for C9: the concrete stages on the example document return it
unchanged and hand out its own nodes. -/
theorem c9_read_only_witness :
    classC1 ∈ Tag.descendants exDoc ∧ instI1 ∈ Tag.descendants exDoc :=
  ⟨(c9_read_only exDoc classC1 "C1" []).2.2.2.2.1 (some "C1") classC1 (by decide),
   (c9_read_only exDoc classC1 "C1" []).2.2.2.2.2 instI1 (by decide)⟩

/-! ### C10: unguarded attribute accesses -/

/-- A slot with no `definingFeature` attribute raises `KeyError`. -/
theorem processSlot_error_no_feature (soup s : Tag)
    (h : s.getAttr "definingFeature" = none) :
    processSlot soup s = Except.error "KeyError definingFeature" := by
  have hgi : getItem s "definingFeature" = Except.error "KeyError definingFeature" := by
    simp [getItem, h]
  simp only [processSlot, hgi, err_bind]

/-- A slot whose defining feature resolves, but whose first `value`
descendant has no `symbol` attribute, raises `KeyError` (on `name` if the
resolved attribute is anonymous, on `symbol` otherwise). -/
theorem processSlot_error_no_symbol (soup s : Tag) (d : String) (a v : Tag)
    (hdf : s.getAttr "definingFeature" = some d)
    (hfound : bsFind soup "ownedAttribute" [("xmi:id", AttrFilter.eqTo d)] = some a)
    (hv : bsFind s "value" [] = some v)
    (hnosym : v.getAttr "symbol" = none) :
    ∃ e, processSlot soup s = Except.error e := by
  have hgi : getItem s "definingFeature" = Except.ok d := by simp [getItem, hdf]
  cases hn : a.getAttr "name" with
  | none =>
    refine ⟨"KeyError name", ?_⟩
    have hgn : getItem a "name" = Except.error "KeyError name" := by simp [getItem, hn]
    simp only [processSlot, hgi, ok_bind, hfound, hgn, err_bind]
  | some nm =>
    refine ⟨"KeyError symbol", ?_⟩
    have hgn : getItem a "name" = Except.ok nm := by simp [getItem, hn]
    have hgs : getItem v "symbol" = Except.error "KeyError symbol" := by simp [getItem, hnosym]
    simp only [processSlot, hgi, ok_bind, hfound, hgn, hv, hgs, err_bind]

/-- If one slot of the list raises, the whole slot loop raises, whatever
the accumulated list. -/
theorem slotFold_error (soup s : Tag) (e : String)
    (hs : processSlot soup s = Except.error e) :
    ∀ pre post acc, ∃ e2, slotFold soup (pre ++ s :: post) acc = Except.error e2 := by
  intro pre
  induction pre with
  | nil =>
    intro post acc
    exact ⟨e, by simp only [List.nil_append, slotFold, hs, err_bind]⟩
  | cons p ps ih =>
    intro post acc
    simp only [List.cons_append, slotFold]
    cases hp : processSlot soup p with
    | error e3 => exact ⟨e3, by rw [err_bind]⟩
    | ok r =>
      rw [ok_bind]
      cases r with
      | some entry => exact ih post (acc ++ [entry])
      | none => exact ih post acc

/-- If the instance has no `name`, or its slot loop raises, `buildRecord`
raises. -/
theorem buildRecord_error (soup inst : Tag)
    (h : inst.getAttr "name" = none ∨
      (∃ pre post s e, bsFindAll inst "slot" [] = pre ++ s :: post ∧
        processSlot soup s = Except.error e)) :
    ∃ e2, buildRecord soup inst = Except.error e2 := by
  cases h with
  | inl hn =>
    refine ⟨"KeyError name", ?_⟩
    have hgn : getItem inst "name" = Except.error "KeyError name" := by simp [getItem, hn]
    simp only [buildRecord, hgn, err_bind]
  | inr hs =>
    obtain ⟨pre, post, s, e, hsplit, hserr⟩ := hs
    cases hn : inst.getAttr "name" with
    | none =>
      refine ⟨"KeyError name", ?_⟩
      have hgn : getItem inst "name" = Except.error "KeyError name" := by simp [getItem, hn]
      simp only [buildRecord, hgn, err_bind]
    | some nm =>
      have hgn : getItem inst "name" = Except.ok nm := by simp [getItem, hn]
      obtain ⟨e2, he2⟩ := slotFold_error soup s e hserr pre post []
      refine ⟨e2, ?_⟩
      simp only [buildRecord, hgn, ok_bind, hsplit, he2, err_bind]

/-- If one instance's record raises, `print_station_details` raises and
returns no record list. -/
theorem print_station_details_error (soup : Tag) (instances : List Tag) (inst : Tag)
    (hmem : inst ∈ instances) (herr : ∃ e, buildRecord soup inst = Except.error e) :
    ∃ e2, print_station_details instances soup = Except.error e2 := by
  induction instances with
  | nil => exact absurd hmem (List.not_mem_nil inst)
  | cons a as ih =>
    unfold print_station_details
    rw [List.mapM_cons]
    cases ha : buildRecord soup a with
    | error e3 => exact ⟨e3, by rw [err_bind]⟩
    | ok rec =>
      rw [ok_bind]
      rcases List.mem_cons.mp hmem with rfl | hmem2
      · obtain ⟨e, he⟩ := herr
        rw [ha] at he
        exact absurd he (by simp)
      · obtain ⟨e2, he2⟩ := ih hmem2
        unfold print_station_details at he2
        rw [he2, err_bind]
        exact ⟨e2, rfl⟩

/-- A value element carrying no `symbol` attribute. -/
def valueNoSym : Tag := Tag.mk "value" [] []

/-- A slot with a dangling defining feature and a symbol-less value. -/
def slotBad : Tag := Tag.mk "slot" [("definingFeature", "A9")] [valueNoSym]

/-- A named instance of `C1` whose only slot is `slotBad`. -/
def instBad : Tag :=
  Tag.mk "packagedElement"
    [("xmi:type", "uml:InstanceSpecification"), ("classifier", "C1"), ("name", "UPSX")]
    [slotBad]

/-- Document for the C10 counterexample and witness. -/
def docC10 : Tag := Tag.mk "[document]" [] [Tag.mk "uml:Model" [] [classC1, instBad]]

/-- Counterexample to C10 as stated: `instBad`'s slot has a value child
with no `symbol` attribute, yet the record builder raises nothing and
returns a record list, because the slot's defining feature is dangling
and the slot is skipped before the value is ever read. -/
theorem c10_no_symbol_counterexample :
    print_station_details [instBad] docC10 =
      Except.ok [{ station_name := "UPSX", attributes := [] }] := by
  decide

/-- C10 as amended: for every matching instance lacking a `name`
attribute, for every slot lacking a `definingFeature` attribute, and for
every slot whose defining feature resolves to a known attribute and whose
first `value` descendant lacks a `symbol` attribute, the record builder
raises an error (unguarded attribute access) instead of skipping or
substituting a placeholder, and returns no record list for that run. -/
theorem c10_unguarded_access_raises (soup : Tag) (instances : List Tag) (inst : Tag)
    (hmem : inst ∈ instances)
    (hbad : inst.getAttr "name" = none ∨
      (∃ pre post s, bsFindAll inst "slot" [] = pre ++ s :: post ∧
        s.getAttr "definingFeature" = none) ∨
      (∃ pre post s d a v, bsFindAll inst "slot" [] = pre ++ s :: post ∧
        s.getAttr "definingFeature" = some d ∧
        bsFind soup "ownedAttribute" [("xmi:id", AttrFilter.eqTo d)] = some a ∧
        bsFind s "value" [] = some v ∧ v.getAttr "symbol" = none)) :
    ∃ e, print_station_details instances soup = Except.error e := by
  apply print_station_details_error soup instances inst hmem
  apply buildRecord_error
  rcases hbad with hn | ⟨pre, post, s, hsplit, hdf⟩ | ⟨pre, post, s, d, a, v, hsplit, hdf, hfound, hv, hnosym⟩
  · exact Or.inl hn
  · exact Or.inr ⟨pre, post, s, "KeyError definingFeature",
      hsplit, processSlot_error_no_feature soup s hdf⟩
  · obtain ⟨e, he⟩ := processSlot_error_no_symbol soup s d a v hdf hfound hv hnosym
    exact Or.inr ⟨pre, post, s, e, hsplit, he⟩

/-- An instance of `C1` with no `name` attribute. -/
def instNoName : Tag :=
  Tag.mk "packagedElement"
    [("xmi:type", "uml:InstanceSpecification"), ("classifier", "C1")] []

/-- Witness for the amended C10: a nameless instance makes the record
builder raise. -/
theorem c10_unguarded_access_raises_witness :
    ∃ e, print_station_details [instNoName] exDoc = Except.error e :=
  c10_unguarded_access_raises exDoc [instNoName] instNoName (by decide)
    (Or.inl (by decide))

/-! ### C7: JSON serialization and round-trip

`save_station_details_to_json` (lines 124-134) writes
`json.dump(station_details, f, ensure_ascii=False, indent=4)`.  The JSON
fragment it emits (strings, arrays, objects) is embedded below along with
the serializer's exact text and a parser for that fragment. -/

/-- A JSON value of the fragment produced by the serializer. -/
inductive JVal : Type where
  | str (s : String)
  | arr (elems : List JVal)
  | obj (fields : List (String × JVal))

/-- Lowercase hexadecimal digit, as emitted by the serializer's
`\u00XX` escapes. -/
def hexDigitChar : Nat → Char
  | 0 => '0' | 1 => '1' | 2 => '2' | 3 => '3' | 4 => '4'
  | 5 => '5' | 6 => '6' | 7 => '7' | 8 => '8' | 9 => '9'
  | 10 => 'a' | 11 => 'b' | 12 => 'c' | 13 => 'd' | 14 => 'e'
  | _ => 'f'

/-- String-character escaping with `ensure_ascii=False`: backslash,
double quote and control characters are escaped, every other character —
in particular every non-ASCII character — is emitted verbatim. -/
def escapeChar (c : Char) : List Char :=
  if c = '\\' then ['\\', '\\']
  else if c = '"' then ['\\', '"']
  else if c = '\n' then ['\\', 'n']
  else if c = '\t' then ['\\', 't']
  else if c = '\r' then ['\\', 'r']
  else if c = '\x08' then ['\\', 'b']
  else if c = '\x0c' then ['\\', 'f']
  else if c.toNat < 32 then
    ['\\', 'u', '0', '0', hexDigitChar (c.toNat / 16), hexDigitChar (c.toNat % 16)]
  else [c]

/-- A JSON string literal: quote, escaped characters, quote. -/
def renderStringChars (s : String) : List Char :=
  '"' :: (s.data.flatMap escapeChar ++ ['"'])

/-- The newline-plus-indent separator of `indent=4` pretty printing. -/
def nlIndent (lvl : Nat) : List Char :=
  '\n' :: List.replicate (4 * lvl) ' '

mutual
/-- The exact character stream `json.dump(v, indent=4,
ensure_ascii=False)` writes for a value at nesting level `lvl`. -/
def renderJVal : JVal → Nat → List Char
  | JVal.str s, _ => renderStringChars s
  | JVal.arr [], _ => ['[', ']']
  | JVal.arr (x :: xs), lvl =>
    '[' :: (nlIndent (lvl + 1) ++ renderJVal x (lvl + 1) ++ renderArrItems xs (lvl + 1) ++
      nlIndent lvl ++ [']'])
  | JVal.obj [], _ => ['\x7b', '\x7d']
  | JVal.obj (f :: fs), lvl =>
    '\x7b' :: (nlIndent (lvl + 1) ++ renderField f (lvl + 1) ++ renderObjItems fs (lvl + 1) ++
      nlIndent lvl ++ ['\x7d'])

/-- One `"key": value` member. -/
def renderField : String × JVal → Nat → List Char
  | (k, v), lvl => renderStringChars k ++ (':' :: ' ' :: renderJVal v lvl)

/-- The remaining array items, each preceded by `,` and the separator. -/
def renderArrItems : List JVal → Nat → List Char
  | [], _ => []
  | x :: xs, lvl => ',' :: (nlIndent lvl ++ renderJVal x lvl ++ renderArrItems xs lvl)

/-- The remaining object members, each preceded by `,` and the
separator. -/
def renderObjItems : List (String × JVal) → Nat → List Char
  | [], _ => []
  | f :: fs, lvl => ',' :: (nlIndent lvl ++ renderField f lvl ++ renderObjItems fs lvl)
end

/-- The JSON value of one attribute entry, field order as built by the
record builder. -/
def entryToJson (e : AttrEntry) : JVal :=
  JVal.obj [("attribute_name", JVal.str e.attribute_name),
            ("attribute_value", JVal.str e.attribute_value)]

/-- The JSON value of one record. -/
def recordToJson (r : StationRecord) : JVal :=
  JVal.obj [("station_name", JVal.str r.station_name),
            ("attributes", JVal.arr (r.attributes.map entryToJson))]

/-- The JSON value of the full record list. -/
def recordsToJson (rs : List StationRecord) : JVal :=
  JVal.arr (rs.map recordToJson)

/-- `save_station_details_to_json` (lines 124-134): the exact character
content written to the output file, `json.dump(station_details, f,
ensure_ascii=False, indent=4)`.  The file write itself is abstracted to
returning the written text. -/
def save_station_details_to_json (station_details : List StationRecord) : String :=
  String.mk (renderJVal (recordsToJson station_details) 0)

/-- JSON insignificant whitespace. -/
def isWsChar (c : Char) : Bool :=
  c = ' ' || c = '\n' || c = '\t' || c = '\r'

/-- Skip insignificant whitespace. -/
def skipWs (cs : List Char) : List Char :=
  cs.dropWhile isWsChar

/-- Value of one hexadecimal digit. -/
def hexVal (c : Char) : Option Nat :=
  if 48 ≤ c.toNat ∧ c.toNat ≤ 57 then some (c.toNat - 48)
  else if 97 ≤ c.toNat ∧ c.toNat ≤ 102 then some (c.toNat - 87)
  else if 65 ≤ c.toNat ∧ c.toNat ≤ 70 then some (c.toNat - 55)
  else none

/-- The single-character escapes of JSON string literals. -/
def unescapeChar (e : Char) : Option Char :=
  if e = '"' then some '"'
  else if e = '\\' then some '\\'
  else if e = '/' then some '/'
  else if e = 'n' then some '\n'
  else if e = 't' then some '\t'
  else if e = 'r' then some '\r'
  else if e = 'b' then some '\x08'
  else if e = 'f' then some '\x0c'
  else none

/-- Parse the body of a JSON string literal after the opening quote,
returning the decoded characters and the input after the closing
quote. -/
def parseStringBody : List Char → Option (List Char × List Char)
  | [] => none
  | c :: rest =>
    if c = '"' then some ([], rest)
    else if c = '\\' then
      match rest with
      | [] => none
      | e :: rest2 =>
        if e = 'u' then
          match rest2 with
          | h1 :: h2 :: h3 :: h4 :: rest3 =>
            match hexVal h1, hexVal h2, hexVal h3, hexVal h4 with
            | some a, some b, some c2, some d =>
              match parseStringBody rest3 with
              | some (s, r) =>
                some (Char.ofNat (((a * 16 + b) * 16 + c2) * 16 + d) :: s, r)
              | none => none
            | _, _, _, _ => none
          | _ => none
        else
          match unescapeChar e with
          | some c2 =>
            match parseStringBody rest2 with
            | some (s, r) => some (c2 :: s, r)
            | none => none
          | none => none
    else
      match parseStringBody rest with
      | some (s, r) => some (c :: s, r)
      | none => none

mutual
/-- Fuel-indexed recursive-descent parser for the JSON fragment written
by the serializer: one value, returning the remaining input. -/
def parseVal : Nat → List Char → Option (JVal × List Char)
  | 0, _ => none
  | fuel + 1, cs =>
    match skipWs cs with
    | [] => none
    | c :: rest =>
      if c = '"' then
        match parseStringBody rest with
        | some (s, r) => some (JVal.str (String.mk s), r)
        | none => none
      else if c = '[' then
        match skipWs rest with
        | ']' :: r => some (JVal.arr [], r)
        | _ =>
          match parseVal fuel rest with
          | some (v, r) =>
            match parseArrRest fuel r with
            | some (vs, r2) => some (JVal.arr (v :: vs), r2)
            | none => none
          | none => none
      else if c = '\x7b' then
        match skipWs rest with
        | '\x7d' :: r => some (JVal.obj [], r)
        | _ =>
          match parseField fuel rest with
          | some (f, r) =>
            match parseObjRest fuel r with
            | some (fs, r2) => some (JVal.obj (f :: fs), r2)
            | none => none
          | none => none
      else none

/-- One `"key": value` member. -/
def parseField : Nat → List Char → Option ((String × JVal) × List Char)
  | 0, _ => none
  | fuel + 1, cs =>
    match skipWs cs with
    | '"' :: rest =>
      match parseStringBody rest with
      | some (k, r) =>
        match skipWs r with
        | ':' :: r2 =>
          match parseVal fuel r2 with
          | some (v, r3) => some ((String.mk k, v), r3)
          | none => none
        | _ => none
      | none => none
    | _ => none

/-- The items after the first array element: `,` separated, `]`
terminated. -/
def parseArrRest : Nat → List Char → Option (List JVal × List Char)
  | 0, _ => none
  | fuel + 1, cs =>
    match skipWs cs with
    | ']' :: r => some ([], r)
    | ',' :: r =>
      match parseVal fuel r with
      | some (v, r2) =>
        match parseArrRest fuel r2 with
        | some (vs, r3) => some (v :: vs, r3)
        | none => none
      | none => none
    | _ => none

/-- The members after the first object member. -/
def parseObjRest : Nat → List Char → Option (List (String × JVal) × List Char)
  | 0, _ => none
  | fuel + 1, cs =>
    match skipWs cs with
    | '\x7d' :: r => some ([], r)
    | ',' :: r =>
      match parseField fuel r with
      | some (f, r2) =>
        match parseObjRest fuel r2 with
        | some (fs, r3) => some (f :: fs, r3)
        | none => none
      | none => none
    | _ => none
end

/-- Parse a whole JSON document: one value, then only whitespace. -/
def parseJson (s : String) : Option JVal :=
  match parseVal (s.data.length + 1) s.data with
  | some (v, rest) => if skipWs rest = [] then some v else none
  | none => none

/-- Decode one attribute-entry object. -/
def decodeEntry : JVal → Option AttrEntry
  | JVal.obj [("attribute_name", JVal.str n), ("attribute_value", JVal.str v)] =>
    some { attribute_name := n, attribute_value := v }
  | _ => none

/-- Decode one record object. -/
def decodeRecord : JVal → Option StationRecord
  | JVal.obj [("station_name", JVal.str n), ("attributes", JVal.arr es)] =>
    match es.mapM decodeEntry with
    | some entries => some { station_name := n, attributes := entries }
    | none => none
  | _ => none

/-- Decode the full record list. -/
def decodeRecords : JVal → Option (List StationRecord)
  | JVal.arr vs => vs.mapM decodeRecord
  | _ => none

mutual
/-- Sufficient parser fuel for a value. -/
def jfuel : JVal → Nat
  | JVal.str _ => 1
  | JVal.arr [] => 1
  | JVal.arr (x :: xs) => 1 + jfuel x + afuel xs
  | JVal.obj [] => 1
  | JVal.obj (f :: fs) => 1 + ffuel f + ofuel fs

/-- Sufficient parser fuel for one object member. -/
def ffuel : String × JVal → Nat
  | (_, v) => 1 + jfuel v

/-- Sufficient parser fuel for the tail of an array. -/
def afuel : List JVal → Nat
  | [] => 1
  | x :: xs => 1 + jfuel x + afuel xs

/-- Sufficient parser fuel for the tail of an object. -/
def ofuel : List (String × JVal) → Nat
  | [] => 1
  | f :: fs => 1 + ffuel f + ofuel fs
end

/-! ### String-literal round-trip -/

/-- Dropping whitespace stops at a non-whitespace head. -/
theorem skipWs_cons_of_not_ws (c : Char) (cs : List Char) (h : isWsChar c = false) :
    skipWs (c :: cs) = c :: cs := by
  simp [skipWs, List.dropWhile_cons, h]

/-- A whitespace prefix is skipped. -/
theorem skipWs_append_ws (ws cs : List Char) (h : ∀ c ∈ ws, isWsChar c = true) :
    skipWs (ws ++ cs) = skipWs cs := by
  induction ws with
  | nil => rfl
  | cons w ws ih =>
    have hw := h w (by simp)
    simp only [List.cons_append, skipWs, List.dropWhile_cons, hw, if_true]
    exact ih (fun c hc => h c (by simp [hc]))

/-- Every character of the indent separator is whitespace. -/
theorem nlIndent_ws (lvl : Nat) : ∀ c ∈ nlIndent lvl, isWsChar c = true := by
  intro c hc
  simp only [nlIndent, List.mem_cons] at hc
  rcases hc with rfl | hrep
  · decide
  · rw [List.eq_of_mem_replicate hrep]
    decide

/-- The hexadecimal digits emitted by the serializer parse back to their
values. -/
theorem hexVal_hexDigitChar (n : Nat) (h : n < 16) : hexVal (hexDigitChar n) = some n := by
  interval_cases n <;> decide

/-- The closing quote ends the string body. -/
theorem psb_quote (rest : List Char) : parseStringBody ('"' :: rest) = some ([], rest) := by
  rw [parseStringBody.eq_def]
  simp

/-- A plain (unescaped) character is consumed verbatim. -/
theorem psb_lit (c : Char) (hq : ¬ c = '"') (hb : ¬ c = '\\') (tail s r : List Char)
    (hps : parseStringBody tail = some (s, r)) :
    parseStringBody (c :: tail) = some (c :: s, r) := by
  rw [parseStringBody.eq_def]
  simp [hq, hb, hps]

/-- A single-character escape is decoded by `unescapeChar`. -/
theorem psb_esc (e c2 : Char) (tail s r : List Char) (heu : ¬ e = 'u')
    (hun : unescapeChar e = some c2) (hps : parseStringBody tail = some (s, r)) :
    parseStringBody ('\\' :: e :: tail) = some (c2 :: s, r) := by
  rw [parseStringBody.eq_def]
  simp [heu, hun, hps]

/-- A `\u00XX` escape with the serializer's hex digits is decoded to the
encoded code point. -/
theorem psb_u (a b : Nat) (ha : a < 16) (hb : b < 16) (tail s r : List Char)
    (hps : parseStringBody tail = some (s, r)) :
    parseStringBody
      ('\\' :: 'u' :: '0' :: '0' :: hexDigitChar a :: hexDigitChar b :: tail) =
      some (Char.ofNat (a * 16 + b) :: s, r) := by
  have h0 : hexVal '0' = some 0 := by decide
  rw [parseStringBody.eq_def]
  simp [h0, hexVal_hexDigitChar a ha, hexVal_hexDigitChar b hb, hps]

/-- One escaped character parses back to itself. -/
theorem parseStringBody_escapeChar (c : Char) (tail s r : List Char)
    (hps : parseStringBody tail = some (s, r)) :
    parseStringBody (escapeChar c ++ tail) = some (c :: s, r) := by
  by_cases h1 : c = '\\'
  · subst h1
    rw [show escapeChar '\\' = ['\\', '\\'] from by decide]
    exact psb_esc '\\' '\\' tail s r (by decide) (by decide) hps
  by_cases h2 : c = '"'
  · subst h2
    rw [show escapeChar '"' = ['\\', '"'] from by decide]
    exact psb_esc '"' '"' tail s r (by decide) (by decide) hps
  by_cases h3 : c = '\n'
  · subst h3
    rw [show escapeChar '\n' = ['\\', 'n'] from by decide]
    exact psb_esc 'n' '\n' tail s r (by decide) (by decide) hps
  by_cases h4 : c = '\t'
  · subst h4
    rw [show escapeChar '\t' = ['\\', 't'] from by decide]
    exact psb_esc 't' '\t' tail s r (by decide) (by decide) hps
  by_cases h5 : c = '\r'
  · subst h5
    rw [show escapeChar '\r' = ['\\', 'r'] from by decide]
    exact psb_esc 'r' '\r' tail s r (by decide) (by decide) hps
  by_cases h6 : c = '\x08'
  · subst h6
    rw [show escapeChar '\x08' = ['\\', 'b'] from by decide]
    exact psb_esc 'b' '\x08' tail s r (by decide) (by decide) hps
  by_cases h7 : c = '\x0c'
  · subst h7
    rw [show escapeChar '\x0c' = ['\\', 'f'] from by decide]
    exact psb_esc 'f' '\x0c' tail s r (by decide) (by decide) hps
  by_cases h8 : c.toNat < 32
  · have hesc : escapeChar c =
        ['\\', 'u', '0', '0', hexDigitChar (c.toNat / 16), hexDigitChar (c.toNat % 16)] := by
      simp [escapeChar, h1, h2, h3, h4, h5, h6, h7, h8]
    rw [hesc]
    have ha : c.toNat / 16 < 16 := by omega
    have hb : c.toNat % 16 < 16 := Nat.mod_lt _ (by norm_num)
    have hu := psb_u (c.toNat / 16) (c.toNat % 16) ha hb tail s r hps
    simp only [List.cons_append, List.nil_append] at hu ⊢
    rw [hu]
    have hdm : c.toNat / 16 * 16 + c.toNat % 16 = c.toNat := by omega
    rw [hdm, Char.ofNat_toNat]
  · have hesc : escapeChar c = [c] := by
      simp [escapeChar, h1, h2, h3, h4, h5, h6, h7, h8]
    rw [hesc]
    exact psb_lit c h2 h1 tail s r hps

/-- A whole escaped string body followed by the closing quote parses back
to the original characters. -/
theorem parseStringBody_escape (l rest : List Char) :
    parseStringBody (l.flatMap escapeChar ++ ('"' :: rest)) = some (l, rest) := by
  induction l with
  | nil => simpa using psb_quote rest
  | cons c l ih =>
    rw [List.flatMap_cons, List.append_assoc]
    exact parseStringBody_escapeChar c _ l rest ih

/-! ### Unfolding equations of the renderer and the parser -/

/-- Rendering a string value. -/
theorem renderJVal_str (s : String) (lvl : Nat) :
    renderJVal (JVal.str s) lvl = '"' :: (s.data.flatMap escapeChar ++ ['"']) := rfl

/-- Rendering the empty array. -/
theorem renderJVal_arr_nil (lvl : Nat) : renderJVal (JVal.arr []) lvl = ['[', ']'] := rfl

/-- Rendering a non-empty array. -/
theorem renderJVal_arr_cons (x : JVal) (xs : List JVal) (lvl : Nat) :
    renderJVal (JVal.arr (x :: xs)) lvl =
      '[' :: (nlIndent (lvl + 1) ++ renderJVal x (lvl + 1) ++ renderArrItems xs (lvl + 1) ++
        nlIndent lvl ++ [']']) := rfl

/-- Rendering the empty object. -/
theorem renderJVal_obj_nil (lvl : Nat) : renderJVal (JVal.obj []) lvl = ['\x7b', '\x7d'] := rfl

/-- Rendering a non-empty object. -/
theorem renderJVal_obj_cons (f : String × JVal) (fs : List (String × JVal)) (lvl : Nat) :
    renderJVal (JVal.obj (f :: fs)) lvl =
      '\x7b' :: (nlIndent (lvl + 1) ++ renderField f (lvl + 1) ++ renderObjItems fs (lvl + 1) ++
        nlIndent lvl ++ ['\x7d']) := rfl

/-- Rendering one object member. -/
theorem renderField_eq (k : String) (v : JVal) (lvl : Nat) :
    renderField (k, v) lvl = renderStringChars k ++ (':' :: ' ' :: renderJVal v lvl) := rfl

/-- Rendering the empty array tail. -/
theorem renderArrItems_nil (lvl : Nat) : renderArrItems [] lvl = [] := rfl

/-- Rendering a non-empty array tail. -/
theorem renderArrItems_cons (x : JVal) (xs : List JVal) (lvl : Nat) :
    renderArrItems (x :: xs) lvl =
      ',' :: (nlIndent lvl ++ renderJVal x lvl ++ renderArrItems xs lvl) := rfl

/-- Rendering the empty object tail. -/
theorem renderObjItems_nil (lvl : Nat) : renderObjItems [] lvl = [] := rfl

/-- Rendering a non-empty object tail. -/
theorem renderObjItems_cons (f : String × JVal) (fs : List (String × JVal)) (lvl : Nat) :
    renderObjItems (f :: fs) lvl =
      ',' :: (nlIndent lvl ++ renderField f lvl ++ renderObjItems fs lvl) := rfl

/-- Parsing a value that starts with a quote. -/
theorem parseVal_succ_quote (f : Nat) (rest : List Char) :
    parseVal (f + 1) ('"' :: rest) =
      (match parseStringBody rest with
       | some (s, r) => some (JVal.str (String.mk s), r)
       | none => none) := rfl

/-- Parsing a value that starts with an opening bracket. -/
theorem parseVal_succ_lbrack (f : Nat) (rest : List Char) :
    parseVal (f + 1) ('[' :: rest) =
      (match skipWs rest with
       | ']' :: r => some (JVal.arr [], r)
       | _ =>
         match parseVal f rest with
         | some (v, r) =>
           match parseArrRest f r with
           | some (vs, r2) => some (JVal.arr (v :: vs), r2)
           | none => none
         | none => none) := rfl

/-- Parsing a value that starts with an opening brace. -/
theorem parseVal_succ_lbrace (f : Nat) (rest : List Char) :
    parseVal (f + 1) ('\x7b' :: rest) =
      (match skipWs rest with
       | '\x7d' :: r => some (JVal.obj [], r)
       | _ =>
         match parseField f rest with
         | some (f2, r) =>
           match parseObjRest f r with
           | some (fs, r2) => some (JVal.obj (f2 :: fs), r2)
           | none => none
         | none => none) := rfl

/-- Parsing an object member that starts with a quote. -/
theorem parseField_succ_quote (f : Nat) (rest0 : List Char) :
    parseField (f + 1) ('"' :: rest0) =
      (match parseStringBody rest0 with
       | some (k, r) =>
         match skipWs r with
         | ':' :: r2 =>
           match parseVal f r2 with
           | some (v, r3) => some ((String.mk k, v), r3)
           | none => none
         | _ => none
       | none => none) := rfl

/-- Parsing an array tail. -/
theorem parseArrRest_succ (f : Nat) (cs : List Char) :
    parseArrRest (f + 1) cs =
      (match skipWs cs with
       | ']' :: r => some ([], r)
       | ',' :: r =>
         match parseVal f r with
         | some (v, r2) =>
           match parseArrRest f r2 with
           | some (vs, r3) => some (v :: vs, r3)
           | none => none
         | none => none
       | _ => none) := rfl

/-- Parsing an array tail that starts with a comma. -/
theorem parseArrRest_succ_comma (f : Nat) (r : List Char) :
    parseArrRest (f + 1) (',' :: r) =
      (match parseVal f r with
       | some (v, r2) =>
         match parseArrRest f r2 with
         | some (vs, r3) => some (v :: vs, r3)
         | none => none
       | none => none) := rfl

/-- Parsing an object tail. -/
theorem parseObjRest_succ (f : Nat) (cs : List Char) :
    parseObjRest (f + 1) cs =
      (match skipWs cs with
       | '\x7d' :: r => some ([], r)
       | ',' :: r =>
         match parseField f r with
         | some (f2, r2) =>
           match parseObjRest f r2 with
           | some (fs, r3) => some (f2 :: fs, r3)
           | none => none
         | none => none
       | _ => none) := rfl

/-- Parsing an object tail that starts with a comma. -/
theorem parseObjRest_succ_comma (f : Nat) (r : List Char) :
    parseObjRest (f + 1) (',' :: r) =
      (match parseField f r with
       | some (f2, r2) =>
         match parseObjRest f r2 with
         | some (fs, r3) => some (f2 :: fs, r3)
         | none => none
       | none => none) := rfl

/-- Every rendered value starts with a quote, an opening bracket or an
opening brace. -/
theorem renderJVal_head (v : JVal) (lvl : Nat) :
    ∃ t, renderJVal v lvl = '"' :: t ∨ renderJVal v lvl = '[' :: t ∨
      renderJVal v lvl = '\x7b' :: t := by
  cases v with
  | str s => exact ⟨_, Or.inl (renderJVal_str s lvl)⟩
  | arr es =>
    cases es with
    | nil => exact ⟨[']'], Or.inr (Or.inl (renderJVal_arr_nil lvl))⟩
    | cons x xs => exact ⟨_, Or.inr (Or.inl (renderJVal_arr_cons x xs lvl))⟩
  | obj fs =>
    cases fs with
    | nil => exact ⟨['\x7d'], Or.inr (Or.inr (renderJVal_obj_nil lvl))⟩
    | cons f2 fs2 => exact ⟨_, Or.inr (Or.inr (renderJVal_obj_cons f2 fs2 lvl))⟩

/-- A rendered value followed by anything: whitespace skipping is the
identity, and the head is neither `]` nor the closing brace. -/
theorem skipWs_render (v : JVal) (lvl : Nat) (T : List Char) :
    skipWs (renderJVal v lvl ++ T) = renderJVal v lvl ++ T ∧
    (∀ r, renderJVal v lvl ++ T ≠ ']' :: r) ∧
    (∀ r, renderJVal v lvl ++ T ≠ '\x7d' :: r) := by
  obtain ⟨t, h | h | h⟩ := renderJVal_head v lvl <;>
    rw [h, List.cons_append] <;>
    exact ⟨skipWs_cons_of_not_ws _ _ (by decide),
      fun r hr => by injection hr with h1 h2; exact absurd h1 (by decide),
      fun r hr => by injection hr with h1 h2; exact absurd h1 (by decide)⟩

/-- A rendered member starts with a quote. -/
theorem renderField_head (f2 : String × JVal) (lvl : Nat) :
    ∃ t, renderField f2 lvl = '"' :: t := by
  obtain ⟨k, v⟩ := f2
  rw [renderField_eq]
  exact ⟨k.data.flatMap escapeChar ++ ('"' :: (':' :: ' ' :: renderJVal v lvl)),
    by simp [renderStringChars]⟩

/-- A rendered member followed by anything: whitespace skipping is the
identity and the head is not the closing brace. -/
theorem skipWs_renderField (f2 : String × JVal) (lvl : Nat) (T : List Char) :
    skipWs (renderField f2 lvl ++ T) = renderField f2 lvl ++ T ∧
    (∀ r, renderField f2 lvl ++ T ≠ '\x7d' :: r) := by
  obtain ⟨t, h⟩ := renderField_head f2 lvl
  rw [h, List.cons_append]
  exact ⟨skipWs_cons_of_not_ws _ _ (by decide),
    fun r hr => by injection hr with h1 h2; exact absurd h1 (by decide)⟩

/-- A leading whitespace block does not change the parse of a value. -/
theorem parseVal_leading_ws (fuel : Nat) (ws cs : List Char)
    (h : ∀ c ∈ ws, isWsChar c = true) :
    parseVal fuel (ws ++ cs) = parseVal fuel cs := by
  cases fuel with
  | zero => rfl
  | succ f =>
    simp only [parseVal]
    rw [skipWs_append_ws ws cs h]

/-- A leading whitespace block does not change the parse of a member. -/
theorem parseField_leading_ws (fuel : Nat) (ws cs : List Char)
    (h : ∀ c ∈ ws, isWsChar c = true) :
    parseField fuel (ws ++ cs) = parseField fuel cs := by
  cases fuel with
  | zero => rfl
  | succ f =>
    simp only [parseField]
    rw [skipWs_append_ws ws cs h]

/-- Parsing a non-empty array body: when the input after `[` does not
start (after whitespace) with `]`, the element branch is taken. -/
theorem parseVal_succ_lbrack_ne (f : Nat) (rest : List Char)
    (h : ∀ r, skipWs rest ≠ ']' :: r) :
    parseVal (f + 1) ('[' :: rest) =
      (match parseVal f rest with
       | some (v, r) =>
         match parseArrRest f r with
         | some (vs, r2) => some (JVal.arr (v :: vs), r2)
         | none => none
       | none => none) := by
  rw [parseVal_succ_lbrack]
  split
  · next r heq => exact absurd heq (h r)
  · rfl

/-- Parsing a non-empty object body: when the input after the opening
brace does not start (after whitespace) with the closing brace, the
member branch is taken. -/
theorem parseVal_succ_lbrace_ne (f : Nat) (rest : List Char)
    (h : ∀ r, skipWs rest ≠ '\x7d' :: r) :
    parseVal (f + 1) ('\x7b' :: rest) =
      (match parseField f rest with
       | some (f2, r) =>
         match parseObjRest f r with
         | some (fs, r2) => some (JVal.obj (f2 :: fs), r2)
         | none => none
       | none => none) := by
  rw [parseVal_succ_lbrace]
  split
  · next r heq => exact absurd heq (h r)
  · rfl

/-- Parser fuel is positive. -/
theorem jfuel_pos (v : JVal) : 1 ≤ jfuel v := by
  cases v with
  | str s => simp [jfuel]
  | arr es => cases es <;> simp only [jfuel] <;> omega
  | obj fs => cases fs <;> simp only [jfuel] <;> omega

/-- Member fuel is positive. -/
theorem ffuel_pos (f2 : String × JVal) : 1 ≤ ffuel f2 := by
  obtain ⟨k, v⟩ := f2
  simp only [ffuel]
  omega

/-- Array-tail fuel is positive. -/
theorem afuel_pos (xs : List JVal) : 1 ≤ afuel xs := by
  cases xs <;> simp only [afuel] <;> omega

/-- Object-tail fuel is positive. -/
theorem ofuel_pos (fs : List (String × JVal)) : 1 ≤ ofuel fs := by
  cases fs <;> simp only [ofuel] <;> omega

/-- The parser inverts the renderer: with enough fuel, a rendered value
(respectively member, array tail, object tail) followed by any remaining
input parses back to itself, leaving exactly that remaining input. -/
theorem parse_render (fuel : Nat) :
    (∀ v lvl rest, jfuel v ≤ fuel →
      parseVal fuel (renderJVal v lvl ++ rest) = some (v, rest)) ∧
    (∀ k v lvl rest, ffuel (k, v) ≤ fuel →
      parseField fuel (renderField (k, v) lvl ++ rest) = some ((k, v), rest)) ∧
    (∀ xs lvlI lvlO rest, afuel xs ≤ fuel →
      parseArrRest fuel (renderArrItems xs lvlI ++ (nlIndent lvlO ++ (']' :: rest))) =
        some (xs, rest)) ∧
    (∀ fs lvlI lvlO rest, ofuel fs ≤ fuel →
      parseObjRest fuel (renderObjItems fs lvlI ++ (nlIndent lvlO ++ ('\x7d' :: rest))) =
        some (fs, rest)) := by
  induction fuel using Nat.strong_induction_on with
  | _ fuel ih =>
  cases fuel with
  | zero =>
    refine ⟨fun v _ _ hf => absurd hf (by have := jfuel_pos v; omega),
            fun k v _ _ hf => absurd hf (by have := ffuel_pos (k, v); omega),
            fun xs _ _ _ hf => absurd hf (by have := afuel_pos xs; omega),
            fun fs _ _ _ hf => absurd hf (by have := ofuel_pos fs; omega)⟩
  | succ f =>
    obtain ⟨ihv, ihf, iha, iho⟩ := ih f (Nat.lt_succ_self f)
    refine ⟨?_, ?_, ?_, ?_⟩
    · intro v lvl rest hfuel
      cases v with
      | str s =>
        rw [renderJVal_str, List.cons_append, parseVal_succ_quote]
        have hps : parseStringBody ((s.data.flatMap escapeChar ++ ['"']) ++ rest) =
            some (s.data, rest) := by
          rw [List.append_assoc, List.singleton_append]
          exact parseStringBody_escape s.data rest
        rw [hps]
      | arr es =>
        cases es with
        | nil =>
          rw [renderJVal_arr_nil, List.cons_append, List.cons_append, List.nil_append,
            parseVal_succ_lbrack, skipWs_cons_of_not_ws _ _ (by decide)]
          rfl
        | cons x xs =>
          have hfx : jfuel x ≤ f := by simp only [jfuel] at hfuel; omega
          have hfxs : afuel xs ≤ f := by simp only [jfuel] at hfuel; omega
          rw [renderJVal_arr_cons]
          have hshape :
              ('[' :: (nlIndent (lvl + 1) ++ renderJVal x (lvl + 1) ++
                renderArrItems xs (lvl + 1) ++ nlIndent lvl ++ [']'])) ++ rest =
              '[' :: (nlIndent (lvl + 1) ++ (renderJVal x (lvl + 1) ++
                (renderArrItems xs (lvl + 1) ++ (nlIndent lvl ++ (']' :: rest))))) := by
            simp [List.append_assoc]
          rw [hshape]
          have hsw := skipWs_render x (lvl + 1)
            (renderArrItems xs (lvl + 1) ++ (nlIndent lvl ++ (']' :: rest)))
          have hne : ∀ r, skipWs (nlIndent (lvl + 1) ++ (renderJVal x (lvl + 1) ++
              (renderArrItems xs (lvl + 1) ++ (nlIndent lvl ++ (']' :: rest))))) ≠
              ']' :: r := by
            intro r
            rw [skipWs_append_ws _ _ (nlIndent_ws (lvl + 1)), hsw.1]
            exact hsw.2.1 r
          rw [parseVal_succ_lbrack_ne f _ hne]
          have hv : parseVal f (nlIndent (lvl + 1) ++ (renderJVal x (lvl + 1) ++
              (renderArrItems xs (lvl + 1) ++ (nlIndent lvl ++ (']' :: rest))))) =
              some (x, renderArrItems xs (lvl + 1) ++ (nlIndent lvl ++ (']' :: rest))) := by
            rw [parseVal_leading_ws f _ _ (nlIndent_ws (lvl + 1))]
            exact ihv x (lvl + 1) _ hfx
          simp only [hv, iha xs (lvl + 1) lvl rest hfxs]
      | obj fs =>
        cases fs with
        | nil =>
          rw [renderJVal_obj_nil, List.cons_append, List.cons_append, List.nil_append,
            parseVal_succ_lbrace, skipWs_cons_of_not_ws _ _ (by decide)]
          rfl
        | cons f2 fs2 =>
          obtain ⟨k2, v2⟩ := f2
          have hff : ffuel (k2, v2) ≤ f := by simp only [jfuel] at hfuel; omega
          have hfo : ofuel fs2 ≤ f := by simp only [jfuel] at hfuel; omega
          rw [renderJVal_obj_cons]
          have hshape :
              ('\x7b' :: (nlIndent (lvl + 1) ++ renderField (k2, v2) (lvl + 1) ++
                renderObjItems fs2 (lvl + 1) ++ nlIndent lvl ++ ['\x7d'])) ++ rest =
              '\x7b' :: (nlIndent (lvl + 1) ++ (renderField (k2, v2) (lvl + 1) ++
                (renderObjItems fs2 (lvl + 1) ++ (nlIndent lvl ++ ('\x7d' :: rest))))) := by
            simp [List.append_assoc]
          rw [hshape]
          have hswf := skipWs_renderField (k2, v2) (lvl + 1)
            (renderObjItems fs2 (lvl + 1) ++ (nlIndent lvl ++ ('\x7d' :: rest)))
          have hne : ∀ r, skipWs (nlIndent (lvl + 1) ++ (renderField (k2, v2) (lvl + 1) ++
              (renderObjItems fs2 (lvl + 1) ++ (nlIndent lvl ++ ('\x7d' :: rest))))) ≠
              '\x7d' :: r := by
            intro r
            rw [skipWs_append_ws _ _ (nlIndent_ws (lvl + 1)), hswf.1]
            exact hswf.2 r
          rw [parseVal_succ_lbrace_ne f _ hne]
          have hf2 : parseField f (nlIndent (lvl + 1) ++ (renderField (k2, v2) (lvl + 1) ++
              (renderObjItems fs2 (lvl + 1) ++ (nlIndent lvl ++ ('\x7d' :: rest))))) =
              some ((k2, v2), renderObjItems fs2 (lvl + 1) ++
                (nlIndent lvl ++ ('\x7d' :: rest))) := by
            rw [parseField_leading_ws f _ _ (nlIndent_ws (lvl + 1))]
            exact ihf k2 v2 (lvl + 1) _ hff
          simp only [hf2, iho fs2 (lvl + 1) lvl rest hfo]
    · intro k v lvl rest hfuel
      have hfv : jfuel v ≤ f := by simp only [ffuel] at hfuel; omega
      rw [renderField_eq]
      have hshape :
          (renderStringChars k ++ (':' :: ' ' :: renderJVal v lvl)) ++ rest =
          '"' :: (k.data.flatMap escapeChar ++
            ('"' :: (':' :: (' ' :: (renderJVal v lvl ++ rest))))) := by
        simp [renderStringChars, List.append_assoc]
      rw [hshape, parseField_succ_quote]
      have hps : parseStringBody (k.data.flatMap escapeChar ++
          ('"' :: (':' :: (' ' :: (renderJVal v lvl ++ rest))))) =
          some (k.data, ':' :: (' ' :: (renderJVal v lvl ++ rest))) :=
        parseStringBody_escape k.data _
      simp only [hps]
      rw [skipWs_cons_of_not_ws _ _ (by decide)]
      have hv : parseVal f (' ' :: (renderJVal v lvl ++ rest)) = some (v, rest) := by
        have hws : ∀ c ∈ [' '], isWsChar c = true := by decide
        have hpre := parseVal_leading_ws f [' '] (renderJVal v lvl ++ rest) hws
        rw [List.singleton_append] at hpre
        rw [hpre]
        exact ihv v lvl rest hfv
      simp only [hv]
    · intro xs lvlI lvlO rest hfuel
      cases xs with
      | nil =>
        rw [renderArrItems_nil, List.nil_append, parseArrRest_succ,
          skipWs_append_ws _ _ (nlIndent_ws lvlO), skipWs_cons_of_not_ws _ _ (by decide)]
        rfl
      | cons x xs2 =>
        have hfx : jfuel x ≤ f := by simp only [afuel] at hfuel; omega
        have hfxs : afuel xs2 ≤ f := by simp only [afuel] at hfuel; omega
        rw [renderArrItems_cons]
        have hshape :
            (',' :: (nlIndent lvlI ++ renderJVal x lvlI ++ renderArrItems xs2 lvlI)) ++
              (nlIndent lvlO ++ (']' :: rest)) =
            ',' :: (nlIndent lvlI ++ (renderJVal x lvlI ++
              (renderArrItems xs2 lvlI ++ (nlIndent lvlO ++ (']' :: rest))))) := by
          simp [List.append_assoc]
        rw [hshape, parseArrRest_succ_comma]
        have hv : parseVal f (nlIndent lvlI ++ (renderJVal x lvlI ++
            (renderArrItems xs2 lvlI ++ (nlIndent lvlO ++ (']' :: rest))))) =
            some (x, renderArrItems xs2 lvlI ++ (nlIndent lvlO ++ (']' :: rest))) := by
          rw [parseVal_leading_ws f _ _ (nlIndent_ws lvlI)]
          exact ihv x lvlI _ hfx
        simp only [hv, iha xs2 lvlI lvlO rest hfxs]
    · intro fs lvlI lvlO rest hfuel
      cases fs with
      | nil =>
        rw [renderObjItems_nil, List.nil_append, parseObjRest_succ,
          skipWs_append_ws _ _ (nlIndent_ws lvlO), skipWs_cons_of_not_ws _ _ (by decide)]
        rfl
      | cons f2 fs2 =>
        obtain ⟨k2, v2⟩ := f2
        have hff : ffuel (k2, v2) ≤ f := by simp only [ofuel] at hfuel; omega
        have hfo : ofuel fs2 ≤ f := by simp only [ofuel] at hfuel; omega
        rw [renderObjItems_cons]
        have hshape :
            (',' :: (nlIndent lvlI ++ renderField (k2, v2) lvlI ++ renderObjItems fs2 lvlI)) ++
              (nlIndent lvlO ++ ('\x7d' :: rest)) =
            ',' :: (nlIndent lvlI ++ (renderField (k2, v2) lvlI ++
              (renderObjItems fs2 lvlI ++ (nlIndent lvlO ++ ('\x7d' :: rest))))) := by
          simp [List.append_assoc]
        rw [hshape, parseObjRest_succ_comma]
        have hf2 : parseField f (nlIndent lvlI ++ (renderField (k2, v2) lvlI ++
            (renderObjItems fs2 lvlI ++ (nlIndent lvlO ++ ('\x7d' :: rest))))) =
            some ((k2, v2), renderObjItems fs2 lvlI ++ (nlIndent lvlO ++ ('\x7d' :: rest))) := by
          rw [parseField_leading_ws f _ _ (nlIndent_ws lvlI)]
          exact ihf k2 v2 lvlI _ hff
        simp only [hf2, iho fs2 lvlI lvlO rest hfo]

/-- The parser fuel of a value is bounded by one more than the length of
its rendering, so the length of the serialized text is always enough
fuel. -/
theorem fuel_le_len (n : Nat) :
    (∀ v : JVal, sizeOf v ≤ n → ∀ lvl, jfuel v ≤ (renderJVal v lvl).length + 1) ∧
    (∀ f2 : String × JVal, sizeOf f2 ≤ n → ∀ lvl, ffuel f2 ≤ (renderField f2 lvl).length) ∧
    (∀ xs : List JVal, sizeOf xs ≤ n → ∀ lvl, afuel xs ≤ (renderArrItems xs lvl).length + 1) ∧
    (∀ fs : List (String × JVal), sizeOf fs ≤ n → ∀ lvl,
      ofuel fs ≤ (renderObjItems fs lvl).length + 1) := by
  induction n using Nat.strong_induction_on with
  | _ n ih =>
  refine ⟨?_, ?_, ?_, ?_⟩
  · intro v hsz lvl
    cases v with
    | str s => simp only [jfuel]; omega
    | arr es =>
      cases es with
      | nil => simp [jfuel, renderJVal_arr_nil]
      | cons x xs =>
        have hszx : sizeOf x < n := by simp at hsz; omega
        have hszxs : sizeOf xs < n := by simp at hsz; omega
        have h1 := (ih (sizeOf x) hszx).1 x le_rfl (lvl + 1)
        have h2 := (ih (sizeOf xs) hszxs).2.2.1 xs le_rfl (lvl + 1)
        rw [renderJVal_arr_cons]
        simp only [jfuel, List.length_cons, List.length_append, nlIndent,
          List.length_replicate]
        omega
    | obj fs =>
      cases fs with
      | nil => simp [jfuel, renderJVal_obj_nil]
      | cons f2 fs2 =>
        have hszf : sizeOf f2 < n := by simp at hsz; omega
        have hszfs : sizeOf fs2 < n := by simp at hsz; omega
        have h1 := (ih (sizeOf f2) hszf).2.1 f2 le_rfl (lvl + 1)
        have h2 := (ih (sizeOf fs2) hszfs).2.2.2 fs2 le_rfl (lvl + 1)
        rw [renderJVal_obj_cons]
        simp only [jfuel, List.length_cons, List.length_append, nlIndent,
          List.length_replicate]
        omega
  · intro f2 hsz lvl
    obtain ⟨k, v⟩ := f2
    have hszv : sizeOf v < n := by simp at hsz; omega
    have h1 := (ih (sizeOf v) hszv).1 v le_rfl lvl
    rw [renderField_eq]
    simp only [ffuel, renderStringChars, List.length_append, List.length_cons]
    omega
  · intro xs hsz lvl
    cases xs with
    | nil => simp [afuel, renderArrItems_nil]
    | cons x xs2 =>
      have hszx : sizeOf x < n := by simp at hsz; omega
      have hszxs : sizeOf xs2 < n := by simp at hsz; omega
      have h1 := (ih (sizeOf x) hszx).1 x le_rfl lvl
      have h2 := (ih (sizeOf xs2) hszxs).2.2.1 xs2 le_rfl lvl
      rw [renderArrItems_cons]
      simp only [afuel, List.length_cons, List.length_append, nlIndent,
        List.length_replicate]
      omega
  · intro fs hsz lvl
    cases fs with
    | nil => simp [ofuel, renderObjItems_nil]
    | cons f2 fs2 =>
      have hszf : sizeOf f2 < n := by simp at hsz; omega
      have hszfs : sizeOf fs2 < n := by simp at hsz; omega
      have h1 := (ih (sizeOf f2) hszf).2.1 f2 le_rfl lvl
      have h2 := (ih (sizeOf fs2) hszfs).2.2.2 fs2 le_rfl lvl
      rw [renderObjItems_cons]
      simp only [ofuel, List.length_cons, List.length_append, nlIndent,
        List.length_replicate]
      omega

/-- Decoding inverts encoding for one attribute entry. -/
theorem decodeEntry_entryToJson (e : AttrEntry) : decodeEntry (entryToJson e) = some e := rfl

/-- Decoding inverts encoding for an entry list. -/
theorem decode_entries (es : List AttrEntry) :
    (es.map entryToJson).mapM decodeEntry = some es := by
  induction es with
  | nil => rfl
  | cons e es ih =>
    rw [List.map_cons, List.mapM_cons, decodeEntry_entryToJson, ih]
    rfl

/-- Decoding inverts encoding for one record. -/
theorem decodeRecord_recordToJson (r : StationRecord) :
    decodeRecord (recordToJson r) = some r := by
  show (match (r.attributes.map entryToJson).mapM decodeEntry with
    | some entries => some { station_name := r.station_name, attributes := entries }
    | none => none) = some r
  rw [decode_entries]

/-- Decoding inverts encoding for the record list. -/
theorem decodeRecords_recordsToJson (R : List StationRecord) :
    decodeRecords (recordsToJson R) = some R := by
  show (R.map recordToJson).mapM decodeRecord = some R
  induction R with
  | nil => rfl
  | cons r R ih =>
    rw [List.map_cons, List.mapM_cons, decodeRecord_recordToJson, ih]
    rfl

/-- C7: serializing a record list with `save_station_details_to_json`
(`json.dump(..., ensure_ascii=False, indent=4)`) and then parsing the
resulting JSON text yields a structure deep-equal to the record list; and
non-ASCII characters are emitted verbatim (never escaped).  The 4-space
indentation is the `nlIndent`-based layout used by `renderJVal`. -/
theorem c7_json_roundtrip (R : List StationRecord) :
    (parseJson (save_station_details_to_json R)).bind decodeRecords = some R ∧
    (∀ c : Char, 127 < c.toNat → escapeChar c = [c]) := by
  constructor
  · have hfuel : jfuel (recordsToJson R) ≤ (renderJVal (recordsToJson R) 0).length + 1 :=
      (fuel_le_len (sizeOf (recordsToJson R))).1 (recordsToJson R) le_rfl 0
    have hparse := (parse_render ((renderJVal (recordsToJson R) 0).length + 1)).1
      (recordsToJson R) 0 [] hfuel
    rw [List.append_nil] at hparse
    unfold parseJson save_station_details_to_json
    rw [show (String.mk (renderJVal (recordsToJson R) 0)).data =
      renderJVal (recordsToJson R) 0 from rfl]
    simp only [hparse]
    simp [skipWs, decodeRecords_recordsToJson]
  · intro c hc
    have h1 : ¬ c = '\\' := fun h => absurd (h ▸ hc) (by decide)
    have h2 : ¬ c = '"' := fun h => absurd (h ▸ hc) (by decide)
    have h3 : ¬ c = '\n' := fun h => absurd (h ▸ hc) (by decide)
    have h4 : ¬ c = '\t' := fun h => absurd (h ▸ hc) (by decide)
    have h5 : ¬ c = '\r' := fun h => absurd (h ▸ hc) (by decide)
    have h6 : ¬ c = '\x08' := fun h => absurd (h ▸ hc) (by decide)
    have h7 : ¬ c = '\x0c' := fun h => absurd (h ▸ hc) (by decide)
    have h8 : ¬ c.toNat < 32 := by omega
    simp [escapeChar, h1, h2, h3, h4, h5, h6, h7, h8]

/-- Witness for C7: the example record list round-trips, and a non-ASCII
character is emitted verbatim. -/
theorem c7_json_roundtrip_witness :
    (parseJson (save_station_details_to_json
      [{ station_name := "UPS1",
         attributes := [{ attribute_name := "Name", attribute_value := "North Gate" }] }])).bind
      decodeRecords =
      some [{ station_name := "UPS1",
              attributes := [{ attribute_name := "Name", attribute_value := "North Gate" }] }] ∧
    escapeChar 'é' = ['é'] :=
  ⟨(c7_json_roundtrip
      [{ station_name := "UPS1",
         attributes := [{ attribute_name := "Name", attribute_value := "North Gate" }] }]).1,
   (c7_json_roundtrip []).2 'é' (by decide)⟩

end XmlScrapper
